import Mathlib

/-!
Shallow embedding of the `st-workflow` engine (`src/workflow/__init__.py`),
a small in-process workflow engine, together with proofs about its
behaviour.

Python values stored in the shared context are modelled by `Value`,
exceptions by `PyErr`, the context dict by an association list with
dict update semantics, and user callables by `Func` : declared parameter
names, a sync/async flag, a body indexed by the attempt number (so that
stateful callables can be expressed) that threads the shared context,
and an abstract per-attempt `timesOut` oracle standing for wall-clock
expiry of an `asyncio.wait_for` bound — real time itself is not modelled.

The engine (`Workflow._get_step_args`, `Workflow._run_step`,
`Workflow.run_steps`, `Workflow.run`, `Workflow.__init__`, and the
closures built by `add_cond_step` / `add_parallel_steps`) is translated
into explicit state-passing functions.  The concurrent `asyncio.gather`
join of `add_parallel_steps` is linearised in input order: argument
resolution for all delegates first (it happens before any `await` in the
source), then the delegate bodies threaded left to right.  This is a
deterministic linearisation of the scheduler; the properties proved
about the fan-out only concern runs in which completion order is
unobservable (every delegate succeeds).
-/

/-- Exceptions that can cross the engine's boundaries.
`keyError` is raised by `_get_step_args` (`self.ctx[arg]`, line 175),
`indexError` by the `steps[-2]` access in `add_cond_step`'s closure
(line 90), `timeoutError` by `asyncio.wait_for` (line 187), and
`raised` stands for an arbitrary exception raised by a user delegate,
identified by a tag.  `stepExecutionError` occurs nowhere in the
source; it is the wrapper error postulated by the specification's
error taxonomy and exists only so the corresponding claim can be
stated and compared with what the code actually raises. -/
inductive PyErr where
  | keyError (k : String)
  | indexError
  | timeoutError
  | raised (tag : String)
  | stepExecutionError (inner : PyErr)
deriving DecidableEq, Repr

/-- Python values as they occur in the shared context: `None`, booleans,
integers, strings, lists, dicts, and exception objects (stored by
`run_steps` in the `{scope}_error` record). -/
inductive Value where
  | none
  | bool (b : Bool)
  | int (n : Int)
  | str (s : String)
  | vlist (l : List Value)
  | dict (d : List (String × Value))
  | exc (e : PyErr)

/-- Python truthiness for the modelled values (used by the conditional
step's branch selection and by the `cancel` check). -/
def Value.truthy : Value → Bool
  | .none => false
  | .bool b => b
  | .int n => n != 0
  | .str s => s != ""
  | .vlist l => !l.isEmpty
  | .dict d => !d.isEmpty
  | .exc _ => true

/-- The shared context `self.ctx`: a Python dict from string keys to
values, modelled as an association list with first-match lookup and
in-place update. -/
abbrev Ctx := List (String × Value)

/-- Dict lookup, `ctx.get(k)` / `ctx[k]`. -/
def ctxGet : Ctx → String → Option Value
  | [], _ => Option.none
  | (k', v) :: rest, k => if k' = k then some v else ctxGet rest k

/-- Dict update, `ctx[k] = v`: replaces an existing binding in place,
otherwise appends (dict insertion order). -/
def ctxSet : Ctx → String → Value → Ctx
  | [], k, v => [(k, v)]
  | (k', v') :: rest, k, v =>
    if k' = k then (k, v) :: rest else (k', v') :: ctxSet rest k v

/-- `self.ctx.get(k, False)` followed by Python truthiness, as used by
the cancellation check in `run_steps` (line 141). -/
def ctxTruthy (ctx : Ctx) (k : String) : Bool :=
  match ctxGet ctx k with
  | some v => v.truthy
  | Option.none => false

/-- `self.ctx.update(kwargs)` (line 155). -/
def ctxUpdate (ctx : Ctx) (kvs : List (String × Value)) : Ctx :=
  kvs.foldl (fun a kv => ctxSet a kv.1 kv.2) ctx

/-- A user callable as the engine sees it: its declared parameter names
(`inspect.signature(func).parameters`), whether it is a coroutine
function (`asyncio.iscoroutinefunction`), its behaviour `body` — given
the attempt index (so a stateful callable can behave differently per
invocation), the resolved positional arguments and the current shared
context, it returns an outcome and the context as it left it — and
`timesOut i`, an oracle for whether attempt `i`, when awaited under an
`asyncio.wait_for` bound, exceeds that bound. -/
structure Func where
  params : List String
  isAsync : Bool
  body : Nat → List Value → Ctx → (Except PyErr Value) × Ctx
  timesOut : Nat → Bool

/-- Looks up each declared parameter name in the context in order,
failing with `KeyError` at the first missing one — the list
comprehension `[self.ctx[arg] for arg in func_args]` (line 175). -/
def resolveParams (ps : List String) (ctx : Ctx) : Except PyErr (List Value) :=
  match ps with
  | [] => .ok []
  | p :: rest =>
    match ctxGet ctx p with
    | Option.none => .error (.keyError p)
    | some v =>
      match resolveParams rest ctx with
      | .ok vs => .ok (v :: vs)
      | .error e => .error e

/-- `Workflow._get_step_args` (lines 170–175): if `'ctx'` is among the
declared parameter names the whole context is passed as the single
argument, otherwise each name is looked up in the context. -/
def getStepArgs (f : Func) (ctx : Ctx) : Except PyErr (List Value) :=
  if f.params.contains "ctx" then .ok [.dict ctx]
  else resolveParams f.params ctx

/-- One attempt of the `_run_step` loop body (lines 184–191): an async
delegate with a configured timeout runs under `asyncio.wait_for` and
an attempt that exceeds the bound fails with `TimeoutError`; an async
delegate without a timeout is awaited directly; a sync delegate is
called directly (its `timeout`, if any, is ignored — the source never
applies it). -/
def attemptStep (f : Func) (t : Option Nat) (i : Nat) (args : List Value)
    (ctx : Ctx) : (Except PyErr Value) × Ctx :=
  if f.isAsync then
    match t with
    | some _ => if f.timesOut i then (.error .timeoutError, ctx) else f.body i args ctx
    | Option.none => f.body i args ctx
  else f.body i args ctx

/-- The retry loop `for i in range(retries + 1)` of `_run_step`
(lines 183–194): the first successful attempt's result is returned; a
failed attempt is retried immediately while attempts remain; the last
attempt's failure is re-raised as is. -/
def runAttempts (f : Func) (t : Option Nat) (args : List Value) :
    Nat → Nat → Ctx → (Except PyErr Value) × Ctx
  | i, 0, ctx => attemptStep f t i args ctx
  | i, r + 1, ctx =>
    match attemptStep f t i args ctx with
    | (.ok v, c) => (.ok v, c)
    | (.error _, c) => runAttempts f t args (i + 1) r c

/-- `Workflow._run_step` (lines 177–194): arguments are resolved once,
before the retry loop; a resolution failure propagates immediately and
is never retried. -/
def runStep (f : Func) (t : Option Nat) (retries : Nat) (ctx : Ctx) :
    (Except PyErr Value) × Ctx :=
  match getStepArgs f ctx with
  | .error e => (.error e, ctx)
  | .ok args => runAttempts f t args 0 retries ctx

/-- What a registered step's `func` field is: a plain callable, the
`cond_step` closure built by `add_cond_step` (holding the two branch
callables), or the `parallel_step` closure built by
`add_parallel_steps` (holding the delegate list). -/
inductive Delegate where
  | plain (f : Func)
  | cond (onTrue onFalse : Func)
  | parallel (fs : List Func)

/-- The dict appended by `add_step` (lines 46–52). -/
structure Step where
  name : String
  delegate : Delegate
  timeout : Option Nat
  retries : Nat
  cont_on_err : Bool

/-- The expression
`self.ctx.get(self.steps[scope.value][-2]['name']) if self.steps[scope.value] else None`
of `add_cond_step`'s closure (lines 89–90), evaluated against the
scope's step list as it stands at execution time: if the list is empty
the guard yields `None`; otherwise `steps[-2]` is the second-to-last
registered step, and a single-element list makes that access raise
`IndexError`. -/
def condPrev (scopeSteps : List Step) (ctx : Ctx) : Except PyErr (Option Value) :=
  if scopeSteps.isEmpty then .ok Option.none
  else
    match scopeSteps.reverse with
    | _ :: second :: _ => .ok (ctxGet ctx second.name)
    | _ => .error .indexError

/-- The body of `add_cond_step`'s `cond_step` closure (lines 88–96):
read the prior result, pick `on_true_step` on truthiness and
`on_false_step` otherwise, and run the chosen callable through
`_run_step` with the conditional step's own timeout and retries. -/
def condAttempt (scopeSteps : List Step) (onTrue onFalse : Func)
    (t : Option Nat) (retries : Nat) (ctx : Ctx) : (Except PyErr Value) × Ctx :=
  match condPrev scopeSteps ctx with
  | .error e => (.error e, ctx)
  | .ok prev =>
    let chosen :=
      match prev with
      | some v => if v.truthy then onTrue else onFalse
      | Option.none => onFalse
    runStep chosen t retries ctx

/-- Argument resolution for every fan-out delegate, in input order
(the `self._get_step_args(func)` calls in the loop of
`parallel_step`, line 118, which all happen before any delegate is
awaited). -/
def resolveAll (fs : List Func) (ctx : Ctx) : Except PyErr (List (List Value)) :=
  match fs with
  | [] => .ok []
  | f :: rest =>
    match getStepArgs f ctx with
    | .error e => .error e
    | .ok a =>
      match resolveAll rest ctx with
      | .ok tl => .ok (a :: tl)
      | .error e => .error e

/-- The delegate bodies of a fan-out, linearised in input order with
the shared context threaded through (each delegate is called directly,
without retries or a timeout of its own). -/
def runGather (ps : List (Func × List Value)) (i : Nat) (ctx : Ctx) :
    List (Except PyErr Value) × Ctx :=
  match ps with
  | [] => ([], ctx)
  | (f, args) :: rest =>
    let rc := f.body i args ctx
    let rest' := runGather rest i rc.2
    (rc.1 :: rest'.1, rest'.2)

/-- `asyncio.gather`'s join: the ordered result list if every delegate
succeeded, otherwise the first (in input order) failure. -/
def joinAll : List (Except PyErr Value) → Except PyErr (List Value)
  | [] => .ok []
  | .ok v :: rest =>
    match joinAll rest with
    | .ok vs => .ok (v :: vs)
    | .error e => .error e
  | .error e :: _ => .error e

/-- The body of `add_parallel_steps`'s `parallel_step` closure
(lines 113–127): resolve every delegate's arguments, run them all,
join in input order. -/
def parallelAttempt (fs : List Func) (i : Nat) (ctx : Ctx) :
    (Except PyErr Value) × Ctx :=
  match resolveAll fs ctx with
  | .error e => (.error e, ctx)
  | .ok argss =>
    let rc := runGather (fs.zip argss) i ctx
    match joinAll rc.1 with
    | .ok vs => (.ok (.vlist vs), rc.2)
    | .error e => (.error e, rc.2)

/-- The callable actually registered for a step: the plain callable
itself, or the parameterless async closure built by `add_cond_step` /
`add_parallel_steps` (each closure captures the conditional step's own
timeout and retries for its inner `_run_step` call, and the scope's
step list for the `steps[-2]` read). -/
def effFunc (all : List Step) (s : Step) : Func :=
  match s.delegate with
  | .plain f => f
  | .cond onT onF =>
    { params := [], isAsync := true,
      body := fun _ _ ctx => condAttempt all onT onF s.timeout s.retries ctx,
      timesOut := fun _ => false }
  | .parallel fs =>
    { params := [], isAsync := true,
      body := fun i _ ctx => parallelAttempt fs i ctx,
      timesOut := fun _ => false }

/-- `self._run_step(step)` as `run_steps` performs it (line 144). -/
def runStepIn (all : List Step) (s : Step) (ctx : Ctx) :
    (Except PyErr Value) × Ctx :=
  runStep (effFunc all s) s.timeout s.retries ctx

/-- The loop of `Workflow.run_steps` (lines 137–152), with `all` the
scope's full step list (read by conditional steps) and the second list
the steps still to execute: before each step the `cancel` flag stops
the phase without error; a successful step's result is stored under
its name; a failed step records `{scope}_error = {'step': …, 'error': …}`
and either aborts the phase or, with `cont_on_err`, continues. -/
def runStepsGo (scope : String) (all : List Step) :
    List Step → Ctx → (Except PyErr Unit) × Ctx
  | [], ctx => (.ok (), ctx)
  | s :: rest, ctx =>
    if ctxTruthy ctx "cancel" then (.ok (), ctx)
    else
      match runStepIn all s ctx with
      | (.ok v, c) => runStepsGo scope all rest (ctxSet c s.name v)
      | (.error e, c) =>
        let c2 := ctxSet c (scope ++ "_error")
          (.dict [("step", .str s.name), ("error", .exc e)])
        if s.cont_on_err then runStepsGo scope all rest c2 else (.error e, c2)

/-- `Workflow.run_steps(scope)` on a scope whose registered list is
`steps`. -/
def runSteps (scope : String) (steps : List Step) (ctx : Ctx) :
    (Except PyErr Unit) × Ctx :=
  runStepsGo scope steps steps ctx

/-- The three scope tables of a workflow (`self.steps`, lines 27–31). -/
structure Wf where
  normal : List Step
  error : List Step
  exit : List Step

/-- `Workflow.run` (lines 154–165) after the `kwargs` update: run the
NORMAL phase; on failure set `error = True` and either re-raise (no
ERROR and no EXIT steps registered) or run the ERROR phase; in all
cases the `finally` block then runs the EXIT phase, whose own failure
supersedes any pending one, and whose normal completion lets a pending
failure continue to propagate. -/
def runWf (w : Wf) (ctx : Ctx) : (Except PyErr Unit) × Ctx :=
  match runSteps "normal" w.normal ctx with
  | (.ok _, c1) => runSteps "exit" w.exit c1
  | (.error e, c1) =>
    let c2 := ctxSet c1 "error" (.bool true)
    if w.error.isEmpty && w.exit.isEmpty then
      match runSteps "exit" w.exit c2 with
      | (.ok _, c3) => (.error e, c3)
      | (.error e3, c3) => (.error e3, c3)
    else
      match runSteps "error" w.error c2 with
      | (.ok _, c3) =>
        runSteps "exit" w.exit c3
      | (.error e2, c3) =>
        match runSteps "exit" w.exit c3 with
        | (.ok _, c4) => (.error e2, c4)
        | (.error e4, c4) => (.error e4, c4)

/-- `Workflow.run(**kwargs)` (lines 154–155): merge the seed bindings
into the context, then run the phase state machine. -/
def run (w : Wf) (kwargs : List (String × Value)) (ctx : Ctx) :
    (Except PyErr Unit) × Ctx :=
  runWf w (ctxUpdate ctx kwargs)

/-- `Workflow.__init__` (lines 21–24): keeps the caller's mapping and
sets the reserved keys `cancel` and `error` to `False`, overwriting
any caller-seeded values there. -/
def initWf (ctx : Ctx) : Ctx :=
  ctxSet (ctxSet ctx "cancel" (.bool false)) "error" (.bool false)

/-- `Workflow.cancel` (lines 167–168). -/
def cancelWf (ctx : Ctx) : Ctx :=
  ctxSet ctx "cancel" (.bool true)

/-! ### Invocation-counting instrumentation

The specification states how many times a delegate is invoked.  To
observe invocation counts inside the functional embedding, a delegate
is wrapped so that each execution of its body first increments a
counter kept in the shared context — exactly how the specification's
own testable property ("instrumented steps record invocation indices")
would be realised by a stateful callable in the source language.  The
engine itself is untouched. -/

/-- Read the integer counter stored under `k` (0 when absent). -/
def getCount (ctx : Ctx) (k : String) : Int :=
  match ctxGet ctx k with
  | some (.int n) => n
  | _ => 0

/-- Increment the counter stored under `k`. -/
def bumpCount (k : String) (ctx : Ctx) : Ctx :=
  ctxSet ctx k (.int (getCount ctx k + 1))

/-- Wrap a callable so each invocation of its body bumps the counter
under `k` before running; parameters, async-ness and timeout behaviour
are unchanged. -/
def instr (k : String) (f : Func) : Func :=
  { f with body := fun i args ctx => f.body i args (bumpCount k ctx) }

/-! ### Basic context lemmas -/

theorem ctxGet_ctxSet_self (c : Ctx) (k : String) (v : Value) :
    ctxGet (ctxSet c k v) k = some v := by
  induction c with
  | nil => simp [ctxSet, ctxGet]
  | cons kv rest ih =>
    obtain ⟨k', v'⟩ := kv
    by_cases h : k' = k
    · simp [ctxSet, h, ctxGet]
    · simp [ctxSet, h, ctxGet, ih]

theorem ctxGet_ctxSet_ne (c : Ctx) {k k2 : String} (v : Value) (h : k ≠ k2) :
    ctxGet (ctxSet c k2 v) k = ctxGet c k := by
  have h2 : ¬(k2 = k) := fun hh => h (Eq.symm hh)
  induction c with
  | nil => simp [ctxSet, ctxGet, h2]
  | cons kv rest ih =>
    obtain ⟨k', v'⟩ := kv
    by_cases hk : k' = k2
    · subst hk
      simp [ctxSet, ctxGet, h2]
    · by_cases h3 : k' = k
      · simp [ctxSet, hk, ctxGet, h3, h]
      · simp [ctxSet, hk, ctxGet, h3, ih]

theorem getCount_bump (k : String) (c : Ctx) :
    getCount (bumpCount k c) k = getCount c k + 1 := by
  simp [bumpCount, getCount, ctxGet_ctxSet_self]

theorem getCount_bump_iter (k : String) :
    ∀ (n : Nat) (c : Ctx), getCount ((bumpCount k)^[n] c) k = getCount c k + n := by
  intro n
  induction n with
  | zero => intro c; simp
  | succ m ih =>
    intro c
    rw [Function.iterate_succ_apply, ih, getCount_bump]
    push_cast
    ring

theorem ctxGet_bump_ne {k p : String} (h : p ≠ k) (c : Ctx) :
    ctxGet (bumpCount k c) p = ctxGet c p :=
  ctxGet_ctxSet_ne c _ h

theorem ctxGet_bump_iter_ne {k p : String} (h : p ≠ k) :
    ∀ (n : Nat) (c : Ctx), ctxGet ((bumpCount k)^[n] c) p = ctxGet c p := by
  intro n
  induction n with
  | zero => intro c; simp
  | succ m ih =>
    intro c
    rw [Function.iterate_succ_apply, ih, ctxGet_bump_ne h]

/-! ### Retry-loop lemmas -/

/-- When the timeout path cannot fire, one attempt is exactly the
delegate body. -/
theorem attemptStep_eq_body (f : Func) (t : Option Nat) (i : Nat)
    (args : List Value) (c : Ctx)
    (h : f.isAsync = false ∨ t = Option.none ∨ f.timesOut i = false) :
    attemptStep f t i args c = f.body i args c := by
  unfold attemptStep
  rcases h with h | h | h
  · simp [h]
  · subst h; cases f.isAsync <;> simp
  · cases hA : f.isAsync <;> cases t <;> simp [h]

/-- The retry loop on a delegate whose body, on contexts satisfying an
invariant, produces an index-determined outcome and an
index-independent context transformation: if every attempt fails, the
loop performs `rem + 1` attempts and surfaces the LAST attempt's
failure, with the context transformed once per attempt. -/
theorem runAttempts_allFail (f : Func) (t : Option Nat) (args : List Value)
    (out : Nat → Except PyErr Value) (st : Ctx → Ctx) (Inv : Ctx → Prop)
    (hg : ∀ i a c, Inv c → f.body i a c = (out i, st c))
    (hInv : ∀ c, Inv c → Inv (st c))
    (hnb : ∀ i, f.isAsync = false ∨ t = Option.none ∨ f.timesOut i = false)
    (hfail : ∀ j, ∃ e, out j = .error e) :
    ∀ (rem i0 : Nat) (c : Ctx), Inv c →
      runAttempts f t args i0 rem c = (out (i0 + rem), st^[rem + 1] c) := by
  intro rem
  induction rem with
  | zero =>
    intro i0 c hc
    simp only [runAttempts, Nat.add_zero]
    rw [attemptStep_eq_body f t i0 args c (hnb i0), hg i0 args c hc]
    simp
  | succ r ih =>
    intro i0 c hc
    obtain ⟨e, he⟩ := hfail i0
    simp only [runAttempts]
    rw [attemptStep_eq_body f t i0 args c (hnb i0), hg i0 args c hc, he]
    simp only []
    rw [ih (i0 + 1) (st c) (hInv c hc)]
    rw [show i0 + 1 + r = i0 + (r + 1) by omega]
    rw [show st^[r + 1 + 1] c = st^[r + 1] (st c) from Function.iterate_succ_apply st (r + 1) c]

/-- Same setting, first success on attempt index `i0 + m` (`m ≤ rem`
remaining budget): the loop performs exactly `m + 1` attempts and
returns that attempt's result. -/
theorem runAttempts_firstSucc (f : Func) (t : Option Nat) (args : List Value)
    (out : Nat → Except PyErr Value) (st : Ctx → Ctx) (Inv : Ctx → Prop)
    (hg : ∀ i a c, Inv c → f.body i a c = (out i, st c))
    (hInv : ∀ c, Inv c → Inv (st c))
    (hnb : ∀ i, f.isAsync = false ∨ t = Option.none ∨ f.timesOut i = false)
    (v : Value) :
    ∀ (m rem i0 : Nat) (c : Ctx), Inv c → m ≤ rem →
      (∀ j, j < m → ∃ e, out (i0 + j) = .error e) →
      out (i0 + m) = .ok v →
      runAttempts f t args i0 rem c = (.ok v, st^[m + 1] c) := by
  intro m
  induction m with
  | zero =>
    intro rem i0 c hc _ _ hs
    rw [Nat.add_zero] at hs
    cases rem with
    | zero =>
      simp only [runAttempts]
      rw [attemptStep_eq_body f t i0 args c (hnb i0), hg i0 args c hc, hs]
      simp
    | succ r =>
      simp only [runAttempts]
      rw [attemptStep_eq_body f t i0 args c (hnb i0), hg i0 args c hc, hs]
      simp
  | succ m ih =>
    intro rem i0 c hc hle hfails hs
    cases rem with
    | zero => omega
    | succ r =>
      obtain ⟨e, he⟩ := hfails 0 (by omega)
      rw [Nat.add_zero] at he
      simp only [runAttempts]
      rw [attemptStep_eq_body f t i0 args c (hnb i0), hg i0 args c hc, he]
      simp only []
      rw [ih r (i0 + 1) (st c) (hInv c hc) (by omega)
        (fun j hj => by
          rw [show i0 + 1 + j = i0 + (j + 1) by omega]
          exact hfails (j + 1) (by omega))
        (by rw [show i0 + 1 + m = i0 + (m + 1) by omega]; exact hs)]
      rw [show st^[m + 1 + 1] c = st^[m + 1] (st c) from Function.iterate_succ_apply st (m + 1) c]

/-- An async delegate under a configured timeout whose every attempt
exceeds the bound: every attempt fails with `TimeoutError`, and after
the retries are exhausted `TimeoutError` itself surfaces. -/
theorem runAttempts_timeout (f : Func) (t : Option Nat) (args : List Value)
    (T : Nat) (ha : f.isAsync = true) (ht : t = some T)
    (hto : ∀ i, f.timesOut i = true) :
    ∀ (rem i0 : Nat) (c : Ctx),
      runAttempts f t args i0 rem c = (.error .timeoutError, c) := by
  subst ht
  intro rem
  induction rem with
  | zero => intro i0 c; simp [runAttempts, attemptStep, ha, hto]
  | succ r ih => intro i0 c; simp [runAttempts, attemptStep, ha, hto, ih]

/-! ### Phase-runner lemmas -/

/-- Once the `cancel` flag is truthy, a phase run executes none of its
steps and returns the context unchanged, without error. -/
theorem runStepsGo_cancelled (scope : String) (all steps : List Step)
    (ctx : Ctx) (h : ctxTruthy ctx "cancel" = true) :
    runStepsGo scope all steps ctx = (.ok (), ctx) := by
  cases steps with
  | nil => rfl
  | cons s rest => simp [runStepsGo, h]

/-- A phase run that completes a prefix normally continues from the
prefix's final context. -/
theorem runStepsGo_append_ok (scope : String) (all : List Step) :
    ∀ (xs ys : List Step) (ctx c : Ctx),
      runStepsGo scope all xs ctx = (.ok (), c) →
      runStepsGo scope all (xs ++ ys) ctx = runStepsGo scope all ys c := by
  intro xs
  induction xs with
  | nil =>
    intro ys ctx c h
    simp only [runStepsGo] at h
    have hcc : ctx = c := congrArg Prod.snd h
    subst hcc
    simp
  | cons s xs ih =>
    intro ys ctx c h
    cases hc : ctxTruthy ctx "cancel" with
    | true =>
      rw [runStepsGo_cancelled scope all (s :: xs) ctx hc] at h
      have hcc : ctx = c := congrArg Prod.snd h
      subst hcc
      rw [runStepsGo_cancelled scope all (s :: xs ++ ys) ctx hc,
        runStepsGo_cancelled scope all ys ctx hc]
    | false =>
      simp only [List.cons_append, runStepsGo, hc, Bool.false_eq_true, if_false] at h ⊢
      rcases hr : runStepIn all s ctx with ⟨r, c1⟩
      rw [hr] at h
      cases r with
      | ok v => exact ih ys (ctxSet c1 s.name v) c h
      | error e =>
        cases hco : s.cont_on_err with
        | true =>
          simp only [hco, if_true] at h ⊢
          exact ih ys _ c h
        | false =>
          simp only [hco, Bool.false_eq_true, if_false] at h
          exact absurd (congrArg Prod.fst h) (by simp)

/-! ### Small engine lemmas used by several claims -/

/-- An attempt that succeeds ends the retry loop at once, whatever the
remaining budget. -/
theorem runAttempts_firstOk (f : Func) (t : Option Nat) (args : List Value)
    (i : Nat) (c c' : Ctx) (v : Value)
    (h : attemptStep f t i args c = (.ok v, c')) :
    ∀ rem, runAttempts f t args i rem c = (.ok v, c') := by
  intro rem
  cases rem with
  | zero => simp [runAttempts, h]
  | succ r => simp [runAttempts, h]

/-- If some declared parameter is missing from the context, the
in-order lookup fails with a `KeyError` for a (the first) missing
parameter. -/
theorem resolveParams_missing (ctx : Ctx) :
    ∀ (ps : List String) (p : String), p ∈ ps → ctxGet ctx p = Option.none →
      ∃ k', resolveParams ps ctx = .error (.keyError k')
        ∧ ctxGet ctx k' = Option.none := by
  intro ps
  induction ps with
  | nil => intro p hp _; exact absurd hp (List.not_mem_nil p)
  | cons q rest ih =>
    intro p hp hmiss
    cases hq : ctxGet ctx q with
    | none => exact ⟨q, by simp [resolveParams, hq], hq⟩
    | some v =>
      have hpr : p ∈ rest := by
        rcases List.mem_cons.mp hp with h | h
        · subst h; rw [hq] at hmiss; exact absurd hmiss (by simp)
        · exact h
      obtain ⟨k', h1, h2⟩ := ih p hpr hmiss
      refine ⟨k', ?_, h2⟩
      simp [resolveParams, hq, h1]

/-- Discriminator for the wrapper error postulated by the spec. -/
def isWrappedErr : PyErr → Bool
  | .stepExecutionError _ => true
  | _ => false

/-! ### The claims -/

/-- C10: `Workflow.__init__` writes `cancel = False` and
`error = False` into the caller-supplied mapping, overwriting any
caller-seeded values under those reserved keys; in particular a
pre-seeded truthy `cancel` is reset, so the `run_steps` cancellation
check does not fire at the start of a run. -/
theorem c10_init_overwrites_reserved_keys (ctx : Ctx) :
    ctxGet (initWf ctx) "cancel" = some (.bool false)
    ∧ ctxGet (initWf ctx) "error" = some (.bool false)
    ∧ ctxTruthy (initWf ctx) "cancel" = false := by
  refine ⟨?_, ?_, ?_⟩
  · unfold initWf
    rw [ctxGet_ctxSet_ne _ _ (by decide), ctxGet_ctxSet_self]
  · unfold initWf
    rw [ctxGet_ctxSet_self]
  · unfold ctxTruthy initWf
    rw [ctxGet_ctxSet_ne _ _ (by decide), ctxGet_ctxSet_self]
    rfl

def c2fT : Func := ⟨[], false, fun _ _ c => (.ok (.str "T"), c), fun _ => false⟩

def c2fF : Func := ⟨[], false, fun _ _ c => (.ok (.str "F"), c), fun _ => false⟩

def c2condOnly : Step := ⟨"c", .cond c2fT c2fF, Option.none, 0, false⟩

def c2wfOnly : Wf := ⟨[c2condOnly], [], []⟩

def c2pred : Step :=
  ⟨"p", .plain ⟨[], false, fun _ _ c => (.ok (.bool true), c), fun _ => false⟩,
    Option.none, 0, false⟩

def c2condMid : Step := ⟨"c", .cond c2fT c2fF, Option.none, 0, false⟩

def c2after : Step :=
  ⟨"z", .plain ⟨[], false, fun _ _ c => (.ok (.int 9), c), fun _ => false⟩,
    Option.none, 0, false⟩

def c2wfMid : Wf := ⟨[c2pred, c2condMid, c2after], [], []⟩

/-- C2 (code bug, evaluated at the failing inputs): a conditional step
registered as the only step of its phase does not select `on_false` as
the spec states — the `steps[-2]` access raises `IndexError`, the run
fails, and no result is recorded for the step.  Further, when a step is
registered after the conditional step, the closure consults the
second-to-last step of the phase list — the conditional step itself,
whose result is not yet stored — so `on_false` runs (result `"F"`)
even though the immediately preceding step's stored result (`p = True`)
is truthy. -/
theorem c2_cond_prev_lookup_bug :
    (runWf c2wfOnly (initWf [])).1 = .error .indexError
    ∧ ctxGet (runWf c2wfOnly (initWf [])).2 "c" = Option.none
    ∧ ctxGet (runWf c2wfMid (initWf [])).2 "p" = some (.bool true)
    ∧ ctxGet (runWf c2wfMid (initWf [])).2 "c" = some (.str "F") :=
  ⟨rfl, rfl, rfl, rfl⟩

/-- C8: if the `cancel` flag is truthy when a phase reaches a step,
that step and every later step of the phase are not executed, the
phase ends without error, and the context — including every completed
step's stored result — is exactly what the completed prefix left. -/
theorem c8_cancel_stops_remaining_steps (scope : String) (all pre rest : List Step)
    (s : Step) (ctx c : Ctx)
    (h1 : runStepsGo scope all pre ctx = (.ok (), c))
    (h2 : ctxTruthy c "cancel" = true) :
    runStepsGo scope all (pre ++ s :: rest) ctx = (.ok (), c) := by
  rw [runStepsGo_append_ok scope all pre (s :: rest) ctx c h1]
  exact runStepsGo_cancelled scope all (s :: rest) c h2

def c8a : Step :=
  ⟨"a", .plain ⟨[], false, fun _ _ c => (.ok (.int 1), ctxSet c "cancel" (.bool true)),
    fun _ => false⟩, Option.none, 0, false⟩

def c8b : Step :=
  ⟨"b", .plain ⟨[], false, fun _ _ c => (.ok (.int 2), c), fun _ => false⟩,
    Option.none, 0, false⟩

/-- C8 witness: a first step that requests cancellation; the second
step of the phase does not run and the phase returns the context the
first step left (with its result stored). -/
theorem c8_cancel_stops_remaining_steps_witness :
    runStepsGo "normal" [c8a, c8b] ([c8a] ++ c8b :: []) (initWf []) =
      (.ok (), (runStepsGo "normal" [c8a, c8b] [c8a] (initWf [])).2) :=
  c8_cancel_stops_remaining_steps "normal" [c8a, c8b] [c8a] [] c8b (initWf [])
    (runStepsGo "normal" [c8a, c8b] [c8a] (initWf [])).2 rfl rfl

def c5f : Func := ⟨["a", "ctx"], false, fun _ _ c => (.ok .none, c), fun _ => false⟩

/-- C5 counterexample: a step declaring the two parameters
`["a", "ctx"]` — not exactly one whole-context parameter — is passed
the whole context as its single argument; no per-name lookup happens
and no `KeyError`/`MissingContextArgument` is raised for the missing
key `"ctx"`, contradicting the claim's "otherwise looks each declared
parameter name up". -/
theorem c5_whole_ctx_despite_two_params_counterexample :
    getStepArgs c5f [("a", .int 1)] = .ok [.dict [("a", .int 1)]]
    ∧ ctxGet [("a", Value.int 1)] "ctx" = Option.none
    ∧ c5f.params ≠ ["ctx"] := ⟨rfl, rfl, by decide⟩

/-- C5 (amended): the whole context is passed whenever `'ctx'` is
among the declared parameter names (however many there are); otherwise
each declared name is looked up and a missing key makes resolution
fail with `KeyError` for a missing parameter; and a resolution failure
leaves `_run_step` before the retry loop, unchanged context, for every
retry budget — it is never retried. -/
theorem c5_argument_resolution_amended (f : Func) (ctx : Ctx) :
    (f.params.contains "ctx" = true → getStepArgs f ctx = .ok [.dict ctx])
    ∧ (f.params.contains "ctx" = false →
        ∀ p, p ∈ f.params → ctxGet ctx p = Option.none →
          ∃ k', getStepArgs f ctx = .error (.keyError k')
            ∧ ctxGet ctx k' = Option.none)
    ∧ (∀ e t r, getStepArgs f ctx = .error e →
        runStep f t r ctx = (.error e, ctx)) := by
  refine ⟨?_, ?_, ?_⟩
  · intro h
    unfold getStepArgs
    rw [h]
    simp
  · intro h p hp hmiss
    obtain ⟨k', h1, h2⟩ := resolveParams_missing ctx f.params p hp hmiss
    refine ⟨k', ?_, h2⟩
    unfold getStepArgs
    rw [h]
    simpa using h1
  · intro e t r h
    simp [runStep, h]

def c5g : Func := ⟨["x", "y"], false, fun _ _ c => (.ok .none, c), fun _ => false⟩

/-- C5 witness: a step declaring `ctx` receives the whole (here empty)
context, and a step whose first parameter is missing fails with that
`KeyError` out of `_run_step` even with 5 retries configured. -/
theorem c5_argument_resolution_amended_witness :
    getStepArgs c5f [] = .ok [.dict []]
    ∧ runStep c5g Option.none 5 [] = (.error (.keyError "x"), []) :=
  ⟨(c5_argument_resolution_amended c5f []).1 rfl,
   (c5_argument_resolution_amended c5g []).2.2 (.keyError "x") Option.none 5 rfl⟩

def c6f : Func := ⟨[], false, fun _ _ c => (.error (.raised "boom"), c), fun _ => false⟩

/-- C6 counterexample: a delegate that raises `boom` on both attempts
of a `retries = 1` step makes `_run_step` surface exactly the raw
delegate exception — not a `StepExecutionError` wrapper (the source
defines no such wrapper and `raise e` re-raises the caught exception
itself), and not a timeout error. -/
theorem c6_unwrapped_failure_counterexample :
    runStep c6f Option.none 1 [] = (.error (.raised "boom"), [])
    ∧ isWrappedErr (.raised "boom") = false
    ∧ PyErr.raised "boom" ≠ .timeoutError := ⟨rfl, rfl, by decide⟩

/-- C6 (amended): once retries are exhausted, the failure that leaves
`_run_step` is the last attempt's failure itself, re-raised unwrapped:
the delegate's own exception, or `TimeoutError` when the final attempt
of an async delegate under a configured bound exceeded it. -/
theorem c6_surfaced_failure_amended (f : Func) (out : Nat → Except PyErr Value)
    (t : Option Nat) (N : Nat) (ctx : Ctx) (args : List Value)
    (hbody : ∀ i a c, f.body i a c = (out i, c))
    (hargs : getStepArgs f ctx = .ok args) :
    ((∀ i, f.timesOut i = false) → ∀ e, (∀ j, ∃ e', out j = .error e') →
      out N = .error e → runStep f t N ctx = (.error e, ctx))
    ∧ (∀ T, f.isAsync = true → t = some T → (∀ i, f.timesOut i = true) →
      runStep f t N ctx = (.error .timeoutError, ctx)) := by
  constructor
  · intro hto e hfail hN
    unfold runStep
    rw [hargs]
    have h := runAttempts_allFail f t args out id (fun _ => True)
      (fun i a c _ => by rw [hbody]; rfl)
      (fun c hc => hc)
      (fun i => Or.inr (Or.inr (hto i)))
      hfail N 0 ctx trivial
    show runAttempts f t args 0 N ctx = (.error e, ctx)
    rw [h, Function.iterate_id]
    simp [hN]
  · intro T ha ht hto
    unfold runStep
    rw [hargs]
    exact runAttempts_timeout f t args T ha ht hto N 0 ctx

def c6g : Func := ⟨[], true, fun _ _ c => (.ok .none, c), fun _ => true⟩

/-- C6 witness: both amended branches at concrete steps — a sync
delegate raising `boom` with 2 retries surfaces `boom` itself, and an
async delegate that always exceeds its 5-unit bound surfaces
`TimeoutError`. -/
theorem c6_surfaced_failure_amended_witness :
    runStep c6f Option.none 2 [] = (.error (.raised "boom"), [])
    ∧ runStep c6g (some 5) 2 [] = (.error .timeoutError, []) :=
  ⟨(c6_surfaced_failure_amended c6f (fun _ => .error (.raised "boom")) Option.none 2 [] []
      (fun _ _ _ => rfl) rfl).1 (fun _ => rfl) (.raised "boom")
      (fun _ => ⟨.raised "boom", rfl⟩) rfl,
   (c6_surfaced_failure_amended c6g (fun _ => .ok .none) (some 5) 2 [] []
      (fun _ _ _ => rfl) rfl).2 5 rfl rfl (fun _ => rfl)⟩

/-- C1: invocation counts of the retry loop, observed through the
counter instrumentation.  For a step whose (counter-preserving,
attempt-indexed) delegate fails on every attempt, `_run_step` with
`retries = N` invokes the delegate exactly `N + 1` times and surfaces
the last attempt's failure; if the delegate first succeeds on attempt
`m` (zero-based, i.e. attempt `k = m + 1 ≤ N + 1`), it is invoked
exactly `m + 1 = k` times and `_run_step` returns that attempt's
result. -/
theorem c1_retry_invocation_counts (f : Func) (out : Nat → Except PyErr Value)
    (k : String) (t : Option Nat) (N : Nat) (ctx : Ctx) (args : List Value)
    (hbody : ∀ i a c, f.body i a c = (out i, c))
    (hto : ∀ i, f.timesOut i = false)
    (hargs : getStepArgs f ctx = .ok args) :
    ((∀ j, ∃ e, out j = .error e) →
      ∃ e c', runStep (instr k f) t N ctx = (.error e, c')
        ∧ out N = .error e
        ∧ getCount c' k = getCount ctx k + (N + 1))
    ∧ (∀ m v, m ≤ N → (∀ j, j < m → ∃ e, out j = .error e) → out m = .ok v →
      ∃ c', runStep (instr k f) t N ctx = (.ok v, c')
        ∧ getCount c' k = getCount ctx k + (m + 1)) := by
  have hargs' : getStepArgs (instr k f) ctx = .ok args := hargs
  have hg : ∀ (i : Nat) (a : List Value) (c : Ctx), True →
      (instr k f).body i a c = (out i, bumpCount k c) := by
    intro i a c _
    show f.body i a (bumpCount k c) = (out i, bumpCount k c)
    rw [hbody]
  have hnb : ∀ i, (instr k f).isAsync = false ∨ t = Option.none
      ∨ (instr k f).timesOut i = false :=
    fun i => Or.inr (Or.inr (hto i))
  constructor
  · intro hfail
    obtain ⟨e, he⟩ := hfail N
    refine ⟨e, (bumpCount k)^[N + 1] ctx, ?_, he, getCount_bump_iter k (N + 1) ctx⟩
    unfold runStep
    rw [hargs']
    show runAttempts (instr k f) t args 0 N ctx = (.error e, (bumpCount k)^[N + 1] ctx)
    rw [runAttempts_allFail (instr k f) t args out (bumpCount k) (fun _ => True)
      hg (fun c hc => hc) hnb hfail N 0 ctx trivial]
    rw [Nat.zero_add, he]
  · intro m v hm hfirst hs
    refine ⟨(bumpCount k)^[m + 1] ctx, ?_, getCount_bump_iter k (m + 1) ctx⟩
    unfold runStep
    rw [hargs']
    show runAttempts (instr k f) t args 0 N ctx = (.ok v, (bumpCount k)^[m + 1] ctx)
    exact runAttempts_firstSucc (instr k f) t args out (bumpCount k) (fun _ => True)
      hg (fun c hc => hc) hnb v m N 0 ctx trivial hm
      (fun j hj => by rw [Nat.zero_add]; exact hfirst j hj)
      (by rw [Nat.zero_add]; exact hs)

def c1wOut : Nat → Except PyErr Value := fun i =>
  if i = 0 then .error (.raised "f0") else .ok (.int 7)

def c1wF : Func := ⟨[], false, fun i _ c => (c1wOut i, c), fun _ => false⟩

/-- C1 witness: a delegate that fails on attempt 0 and succeeds on
attempt 1, run with `retries = 2`: the executor returns the attempt-1
result and the delegate was invoked exactly twice. -/
theorem c1_retry_invocation_counts_witness :
    (runStep (instr "n1" c1wF) Option.none 2 []).1 = .ok (.int 7)
    ∧ getCount (runStep (instr "n1" c1wF) Option.none 2 []).2 "n1" = 2 := by
  obtain ⟨c', heq, hcnt⟩ :=
    (c1_retry_invocation_counts c1wF c1wOut "n1" Option.none 2 [] []
      (fun _ _ _ => rfl) (fun _ => rfl) rfl).2 1 (.int 7) (by omega)
      (fun j hj => by
        have hj0 : j = 0 := by omega
        subst hj0
        exact ⟨.raised "f0", rfl⟩)
      rfl
  rw [heq]
  refine ⟨rfl, ?_⟩
  show getCount c' "n1" = 2
  rw [hcnt]
  rfl

/-- C3: when the NORMAL phase propagates a failure, `error = True` is
set; if neither an ERROR- nor an EXIT-phase step is registered, `run`
re-raises that failure; otherwise the ERROR phase runs on the
error-marked context and then the EXIT phase runs, and — when both
succeed — `run` returns normally, without re-raising the NORMAL-phase
failure. -/
theorem c3_normal_failure_sequencing (w : Wf) (ctx : Ctx) (e : PyErr) (c1 : Ctx)
    (hN : runSteps "normal" w.normal ctx = (.error e, c1)) :
    ctxGet (ctxSet c1 "error" (.bool true)) "error" = some (.bool true)
    ∧ (w.error = [] → w.exit = [] →
        runWf w ctx = (.error e, ctxSet c1 "error" (.bool true)))
    ∧ (∀ c2 c3, (w.error.isEmpty && w.exit.isEmpty) = false →
        runSteps "error" w.error (ctxSet c1 "error" (.bool true)) = (.ok (), c2) →
        runSteps "exit" w.exit c2 = (.ok (), c3) →
        runWf w ctx = (.ok (), c3)) := by
  refine ⟨ctxGet_ctxSet_self _ _ _, ?_, ?_⟩
  · intro hE hX
    simp only [runWf, hN, hE, hX, List.isEmpty_nil, Bool.and_self, if_true]
    rfl
  · intro c2 c3 hne hE hX
    simp only [runWf, hN, hne, Bool.false_eq_true, if_false, hE, hX]

def c3fail : Step :=
  ⟨"f", .plain ⟨[], false, fun _ _ c => (.error (.raised "boom"), c), fun _ => false⟩,
    Option.none, 0, false⟩

def c3handler : Step :=
  ⟨"h", .plain ⟨[], false, fun _ _ c => (.ok (.str "handled"), c), fun _ => false⟩,
    Option.none, 0, false⟩

def c3cleanup : Step :=
  ⟨"fin", .plain ⟨[], false, fun _ _ c => (.ok (.str "cleaned"), c), fun _ => false⟩,
    Option.none, 0, false⟩

def c3wf : Wf := ⟨[c3fail], [c3handler], [c3cleanup]⟩

def c3wfBare : Wf := ⟨[c3fail], [], []⟩

/-- C3 witness: with an ERROR and an EXIT step registered, a failing
NORMAL phase is handled (run returns normally); with neither
registered, the same failure is re-raised to the caller. -/
theorem c3_normal_failure_sequencing_witness :
    (runWf c3wf (initWf [])).1 = .ok ()
    ∧ runWf c3wfBare (initWf []) =
      (.error (.raised "boom"),
        ctxSet ((runSteps "normal" c3wfBare.normal (initWf [])).2) "error" (.bool true)) := by
  constructor
  · have h := (c3_normal_failure_sequencing c3wf (initWf []) (.raised "boom")
      ((runSteps "normal" c3wf.normal (initWf [])).2) rfl).2.2
      ((runSteps "error" c3wf.error
        (ctxSet ((runSteps "normal" c3wf.normal (initWf [])).2) "error" (.bool true))).2)
      ((runSteps "exit" c3wf.exit
        ((runSteps "error" c3wf.error
          (ctxSet ((runSteps "normal" c3wf.normal (initWf [])).2) "error" (.bool true))).2)).2)
      rfl rfl rfl
    rw [h]
  · exact (c3_normal_failure_sequencing c3wfBare (initWf []) (.raised "boom")
      ((runSteps "normal" c3wfBare.normal (initWf [])).2) rfl).2.1 rfl rfl

/-- C4 (amended): the EXIT phase is invoked on every path — after a
successful NORMAL phase and after a NORMAL-phase failure handled by
the ERROR phase — but a pending cancellation suppresses its steps:
`run_steps` on any scope whose entry context has a truthy `cancel`
flag executes none of the scope's steps, so after a cooperative
cancellation the registered EXIT steps do not actually run. -/
theorem c4_exit_phase_amended (w : Wf) (ctx : Ctx) :
    (∀ c1, runSteps "normal" w.normal ctx = (.ok (), c1) →
      runWf w ctx = runSteps "exit" w.exit c1)
    ∧ (∀ e c1 c2, runSteps "normal" w.normal ctx = (.error e, c1) →
        (w.error.isEmpty && w.exit.isEmpty) = false →
        runSteps "error" w.error (ctxSet c1 "error" (.bool true)) = (.ok (), c2) →
        runWf w ctx = runSteps "exit" w.exit c2)
    ∧ (∀ (scope : String) (steps : List Step) (c : Ctx),
        ctxTruthy c "cancel" = true → runSteps scope steps c = (.ok (), c)) := by
  refine ⟨?_, ?_, fun scope steps c h => runStepsGo_cancelled scope steps steps c h⟩
  · intro c1 h
    simp only [runWf, h]
  · intro e c1 c2 hN hne hE
    simp only [runWf, hN, hne, Bool.false_eq_true, if_false, hE]

def c4a : Step :=
  ⟨"a", .plain ⟨[], false, fun _ _ c => (.ok .none, ctxSet c "cancel" (.bool true)),
    fun _ => false⟩, Option.none, 0, false⟩

def c4b : Step :=
  ⟨"b", .plain ⟨[], false, fun _ _ c => (.ok .none, ctxSet c "b_ran" (.bool true)),
    fun _ => false⟩, Option.none, 0, false⟩

def c4e : Step :=
  ⟨"fin", .plain ⟨[], false, fun _ _ c => (.ok .none, ctxSet c "exit_ran" (.bool true)),
    fun _ => false⟩, Option.none, 0, false⟩

def c4wf : Wf := ⟨[c4a, c4b], [], [c4e]⟩

/-- C4 counterexample: NORMAL step `a` requests cancellation, stopping
step `b`; the registered EXIT step never executes either (its marker
`exit_ran` is absent from the final context), because the persisting
`cancel` flag also stops the EXIT phase before its first step — the
claim says the EXIT steps are executed in particular after a
cancellation. -/
theorem c4_exit_skipped_after_cancel_counterexample :
    (runWf c4wf (initWf [])).1 = .ok ()
    ∧ ctxGet (runWf c4wf (initWf [])).2 "exit_ran" = Option.none
    ∧ ctxGet (runWf c4wf (initWf [])).2 "b_ran" = Option.none
    ∧ ctxGet (runWf c4wf (initWf [])).2 "a" = some .none :=
  ⟨rfl, rfl, rfl, rfl⟩

def c4ok : Step :=
  ⟨"okstep", .plain ⟨[], false, fun _ _ c => (.ok (.int 1), c), fun _ => false⟩,
    Option.none, 0, false⟩

def c4fin : Step :=
  ⟨"fin", .plain ⟨[], false, fun _ _ c => (.ok (.int 2), c), fun _ => false⟩,
    Option.none, 0, false⟩

def c4wfOk : Wf := ⟨[c4ok], [], [c4fin]⟩

/-- C4 witness: the amended statement at concrete inputs — a successful
NORMAL phase hands off to the EXIT phase, and a phase entered with a
truthy `cancel` flag executes none of its steps. -/
theorem c4_exit_phase_amended_witness :
    runWf c4wfOk (initWf []) =
      runSteps "exit" c4wfOk.exit ((runSteps "normal" c4wfOk.normal (initWf [])).2)
    ∧ runSteps "exit" [c4fin] [("cancel", Value.bool true)] =
      (.ok (), [("cancel", Value.bool true)]) :=
  ⟨(c4_exit_phase_amended c4wfOk (initWf [])).1
      ((runSteps "normal" c4wfOk.normal (initWf [])).2) rfl,
   (c4_exit_phase_amended c4wfOk (initWf [])).2.2 "exit" [c4fin]
      [("cancel", Value.bool true)] rfl⟩

/-- Fan-out helper: when every delegate resolves its arguments against
the fan-out-time context and every body succeeds with a fixed result
leaving the context unchanged, resolution succeeds for the whole list
and the linearised gather returns the results in input order with the
context unchanged. -/
theorem parallel_gather_ok (ctx : Ctx) (i : Nat) (fs : List Func) (rs : List Value)
    (hfa : List.Forall₂ (fun f rv => ∀ j a c, f.body j a c = (.ok rv, c)) fs rs)
    (hargs : ∀ f, f ∈ fs → ∃ a, getStepArgs f ctx = .ok a) :
    ∃ argss, resolveAll fs ctx = .ok argss
      ∧ runGather (fs.zip argss) i ctx = (rs.map Except.ok, ctx) := by
  induction hfa with
  | nil => exact ⟨[], rfl, rfl⟩
  | @cons f rv fs' rs' hP htail ih =>
    obtain ⟨a, ha⟩ := hargs f (List.mem_cons_self f fs')
    obtain ⟨argss, h1, h2⟩ := ih (fun g hg => hargs g (List.mem_cons_of_mem f hg))
    refine ⟨a :: argss, ?_, ?_⟩
    · simp [resolveAll, ha, h1]
    · simp only [List.zip] at h2
      simp [List.zip, runGather, hP i a ctx, h2]

/-- Joining a list of successes yields the ordered value list. -/
theorem joinAll_map_ok : ∀ rs : List Value, joinAll (rs.map Except.ok) = .ok rs := by
  intro rs
  induction rs with
  | nil => rfl
  | cons v rest ih => simp [joinAll, ih]

/-- C7: a parallel fan-out over delegates that all succeed joins every
delegate and returns the ordered result list aligned with the input
order (`asyncio.gather` preserves submission order regardless of
completion order); the phase runner then records that list in the
context under the fan-out step's name. -/
theorem c7_parallel_ordered_join (all : List Step) (scope nm : String)
    (fs : List Func) (rs : List Value) (t : Option Nat) (r : Nat) (co : Bool)
    (ctx : Ctx)
    (hbody : List.Forall₂ (fun f rv => ∀ i a c, f.body i a c = (.ok rv, c)) fs rs)
    (hargs : ∀ f, f ∈ fs → ∃ a, getStepArgs f ctx = .ok a)
    (hcancel : ctxTruthy ctx "cancel" = false) :
    runStepIn all ⟨nm, .parallel fs, t, r, co⟩ ctx = (.ok (.vlist rs), ctx)
    ∧ runStepsGo scope all [⟨nm, .parallel fs, t, r, co⟩] ctx =
      (.ok (), ctxSet ctx nm (.vlist rs)) := by
  obtain ⟨argss, h1, h2⟩ := parallel_gather_ok ctx 0 fs rs hbody hargs
  have hpar : parallelAttempt fs 0 ctx = (.ok (.vlist rs), ctx) := by
    simp [parallelAttempt, h1, h2, joinAll_map_ok]
  have heff : attemptStep (effFunc all ⟨nm, .parallel fs, t, r, co⟩) t 0 [] ctx
      = (.ok (.vlist rs), ctx) := by
    rw [attemptStep_eq_body _ _ _ _ _ (Or.inr (Or.inr rfl))]
    exact hpar
  have hrun : runStepIn all ⟨nm, .parallel fs, t, r, co⟩ ctx = (.ok (.vlist rs), ctx) := by
    unfold runStepIn runStep
    rw [show getStepArgs (effFunc all ⟨nm, .parallel fs, t, r, co⟩) ctx
      = .ok [] from rfl]
    exact runAttempts_firstOk _ _ _ _ _ _ _ heff r
  refine ⟨hrun, ?_⟩
  simp only [runStepsGo, hcancel, Bool.false_eq_true, if_false, hrun]

def c7g1 : Func := ⟨[], false, fun _ _ c => (.ok (.int 1), c), fun _ => false⟩

def c7g2 : Func := ⟨[], true, fun _ _ c => (.ok (.int 2), c), fun _ => false⟩

/-- C7 witness: a fan-out over a sync and an async delegate returning
1 and 2 yields the ordered pair `[1, 2]` and stores it under the step
name. -/
theorem c7_parallel_ordered_join_witness :
    runStepIn [] ⟨"par", .parallel [c7g1, c7g2], Option.none, 0, false⟩ (initWf []) =
      (.ok (.vlist [.int 1, .int 2]), initWf [])
    ∧ runStepsGo "normal" [] [⟨"par", .parallel [c7g1, c7g2], Option.none, 0, false⟩]
        (initWf []) =
      (.ok (), ctxSet (initWf []) "par" (.vlist [.int 1, .int 2])) :=
  c7_parallel_ordered_join [] "normal" "par" [c7g1, c7g2] [.int 1, .int 2]
    Option.none 0 false (initWf [])
    (List.Forall₂.cons (fun _ _ _ => rfl)
      (List.Forall₂.cons (fun _ _ _ => rfl) List.Forall₂.nil))
    (fun f hf => ⟨[], by
      rcases List.mem_cons.mp hf with h | h
      · subst h; rfl
      · rcases List.mem_cons.mp h with h2 | h2
        · subst h2; rfl
        · exact absurd h2 (List.not_mem_nil f)⟩)
    rfl

/-- C9: the conditional step's double retry budget.  A conditional
step registered with `retries = N` is run by the phase runner through
`_run_step` (outer budget `N + 1` attempts of the `cond_step` closure)
and each such attempt calls `_run_step` again on the chosen branch
with the same `retries = N` (inner budget `N + 1`).  With a truthy
predecessor result and an `on_true` branch that fails on every
attempt, the branch delegate is invoked exactly `(N+1) * (N+1)` times
— observed by the counter instrumentation — before the failure
surfaces from the conditional step. -/
theorem c9_cond_step_double_retry (p : Step) (cname : String) (bt bf : Func)
    (E : Nat → PyErr) (k : String) (t : Option Nat) (N : Nat) (ctx : Ctx)
    (v : Value) (co : Bool)
    (hbt : ∀ i a c, bt.body i a c = (.error (E i), c))
    (hto : ∀ i, bt.timesOut i = false)
    (hctxp : bt.params.contains "ctx" = true)
    (hk : p.name ≠ k)
    (hp : ctxGet ctx p.name = some v)
    (hv : v.truthy = true) :
    ∃ c', runStepIn [p, ⟨cname, .cond (instr k bt) bf, t, N, co⟩]
        ⟨cname, .cond (instr k bt) bf, t, N, co⟩ ctx = (.error (E N), c')
      ∧ getCount c' k = getCount ctx k + (N + 1) * (N + 1) := by
  have hinner : ∀ c : Ctx,
      runStep (instr k bt) t N c = (.error (E N), (bumpCount k)^[N + 1] c) := by
    intro c
    unfold runStep
    rw [show getStepArgs (instr k bt) c = .ok [.dict c] by
      unfold getStepArgs
      rw [show (instr k bt).params = bt.params from rfl, hctxp]
      simp]
    show runAttempts (instr k bt) t [.dict c] 0 N c = _
    rw [runAttempts_allFail (instr k bt) t [.dict c] (fun i => .error (E i))
      (bumpCount k) (fun _ => True)
      (fun i a cc _ => by
        show bt.body i a (bumpCount k cc) = _
        rw [hbt])
      (fun cc hc => hc)
      (fun i => Or.inr (Or.inr (hto i)))
      (fun j => ⟨E j, rfl⟩) N 0 c trivial]
    rw [Nat.zero_add]
  have hca : ∀ c : Ctx, ctxGet c p.name = some v →
      condAttempt [p, ⟨cname, .cond (instr k bt) bf, t, N, co⟩] (instr k bt) bf t N c
        = (.error (E N), (bumpCount k)^[N + 1] c) := by
    intro c hc
    unfold condAttempt
    rw [show condPrev [p, ⟨cname, .cond (instr k bt) bf, t, N, co⟩] c
        = .ok (ctxGet c p.name) from rfl, hc]
    show runStep (if v.truthy = true then instr k bt else bf) t N c
      = (.error (E N), (bumpCount k)^[N + 1] c)
    rw [if_pos hv]
    exact hinner c
  have houter := runAttempts_allFail
    (effFunc [p, ⟨cname, .cond (instr k bt) bf, t, N, co⟩]
      ⟨cname, .cond (instr k bt) bf, t, N, co⟩) t []
    (fun _ => .error (E N)) ((bumpCount k)^[N + 1])
    (fun c => ctxGet c p.name = some v)
    (fun i a c hc => hca c hc)
    (fun c hc => by
      show ctxGet ((bumpCount k)^[N + 1] c) p.name = some v
      rw [ctxGet_bump_iter_ne hk]
      exact hc)
    (fun i => Or.inr (Or.inr rfl))
    (fun j => ⟨E N, rfl⟩) N 0 ctx hp
  refine ⟨((bumpCount k)^[N + 1])^[N + 1] ctx, ?_, ?_⟩
  · unfold runStepIn runStep
    rw [show getStepArgs (effFunc [p, ⟨cname, .cond (instr k bt) bf, t, N, co⟩]
      ⟨cname, .cond (instr k bt) bf, t, N, co⟩) ctx = .ok [] from rfl]
    show runAttempts (effFunc [p, ⟨cname, .cond (instr k bt) bf, t, N, co⟩]
      ⟨cname, .cond (instr k bt) bf, t, N, co⟩) t [] 0 N ctx = _
    rw [houter]
  · rw [← Function.iterate_mul]
    exact getCount_bump_iter k ((N + 1) * (N + 1)) ctx

def c9bt : Func := ⟨["ctx"], false, fun _ _ c => (.error (.raised "x"), c), fun _ => false⟩

def c9bf : Func := ⟨[], false, fun _ _ c => (.ok (.str "F"), c), fun _ => false⟩

def c9pred : Step :=
  ⟨"p", .plain ⟨[], false, fun _ _ c => (.ok (.bool true), c), fun _ => false⟩,
    Option.none, 0, false⟩

/-- C9 witness: a conditional step with `retries = 1` whose truthy
predecessor selects an always-failing `on_true` branch — the branch
delegate runs `(1+1) * (1+1) = 4` times and the branch failure
surfaces from the conditional step. -/
theorem c9_cond_step_double_retry_witness :
    (runStepIn [c9pred, ⟨"c", .cond (instr "n9" c9bt) c9bf, Option.none, 1, false⟩]
      ⟨"c", .cond (instr "n9" c9bt) c9bf, Option.none, 1, false⟩
      [("p", .bool true)]).1 = .error (.raised "x")
    ∧ getCount (runStepIn [c9pred, ⟨"c", .cond (instr "n9" c9bt) c9bf, Option.none, 1, false⟩]
      ⟨"c", .cond (instr "n9" c9bt) c9bf, Option.none, 1, false⟩
      [("p", .bool true)]).2 "n9" = 4 := by
  obtain ⟨c', heq, hcnt⟩ := c9_cond_step_double_retry c9pred "c" c9bt c9bf
    (fun _ => .raised "x") "n9" Option.none 1 [("p", .bool true)] (.bool true) false
    (fun _ _ _ => rfl) (fun _ => rfl) rfl (by decide) rfl rfl
  rw [heq]
  refine ⟨rfl, ?_⟩
  show getCount c' "n9" = 4
  rw [hcnt]
  rfl
